import Mathlib

/-!
Verification development for the ESP32 Spectra-6 e-paper image pipeline
(`ImageScreen.cpp`, `DisplayAdapter.cpp`, `WiFiConnection.cpp`).

Shallow embedding conventions:
* C `int` / `int16_t` quantities are modelled as `Int`.  All error-diffusion
  values reachable from in-range pixel data stay well inside the `int16_t`
  range, so no wrap-around is modelled.
* C integer division on signed operands truncates toward zero; it is
  modelled by `Int.tdiv`.
* Byte buffers are total functions `Nat → Nat`; bitmap bytes are built with
  `|||` exactly as the C code ORs mask bits.
* The RGB565 canvas is a function from linear index `y * width + x` to the
  16-bit pixel value.
-/

namespace Spectra

/-- The fixed 6-entry Spectra 6 palette (`Spectra6Palette` in the source):
index 0 Black, 1 White, 2 Yellow, 3 Red, 4 Blue, 5 Green. -/
def palette : Nat → Int × Int × Int
  | 0 => (0, 0, 0)
  | 1 => (255, 255, 255)
  | 2 => (230, 230, 0)
  | 3 => (204, 0, 0)
  | 4 => (0, 51, 204)
  | _ => (0, 204, 0)

def paletteR (i : Nat) : Int := (palette i).1
def paletteG (i : Nat) : Int := (palette i).2.1
def paletteB (i : Nat) : Int := (palette i).2.2

/-- Squared Euclidean RGB distance `dr*dr + dg*dg + db*db` from `(r,g,b)` to
palette entry `i`, as computed inside `findNearestColor`. -/
def dist2 (r g b : Int) (i : Nat) : Int :=
  (r - paletteR i) * (r - paletteR i) + (g - paletteG i) * (g - paletteG i) +
    (b - paletteB i) * (b - paletteB i)

/-- One iteration of the `findNearestColor` scan loop; the accumulator is
`(minDistance, nearestIndex)`. -/
def fncStep (r g b : Int) (acc : Int × Nat) (i : Nat) : Int × Nat :=
  if dist2 r g b i < acc.1 then (dist2 r g b i, i) else acc

/-- `findNearestColor` from the source: linear scan over the 6 palette
entries, `minDistance` initialised to `0xFFFFFFFF` and `nearestIndex` to 1
(White). -/
def findNearestColor (r g b : Int) : Nat :=
  ((List.range 6).foldl (fncStep r g b) (4294967295, 1)).2

theorem findNearestColor_lt_6 (r g b : Int) : findNearestColor r g b < 6 := by
  have h : ∀ (l : List Nat) (acc : Int × Nat),
      ((l.foldl (fncStep r g b) acc).2 = acc.2 ∨ (l.foldl (fncStep r g b) acc).2 ∈ l) := by
    intro l
    induction l with
    | nil => intro acc; left; rfl
    | cons a t ih =>
      intro acc
      rcases ih (fncStep r g b acc a) with h1 | h1
      · simp only [List.foldl_cons]
        rw [h1]
        unfold fncStep
        split
        · right; simp
        · left; rfl
      · right
        simp only [List.foldl_cons]
        exact List.mem_cons_of_mem a h1
  rcases h (List.range 6) (4294967295, 1) with h1 | h1
  · unfold findNearestColor; omega
  · unfold findNearestColor
    have := List.mem_range.mp h1
    omega

lemma palette_channel_bounds (i : Nat) :
    0 ≤ paletteR i ∧ paletteR i ≤ 255 ∧ 0 ≤ paletteG i ∧ paletteG i ≤ 255 ∧
      0 ≤ paletteB i ∧ paletteB i ≤ 255 := by
  rcases i with _ | _ | _ | _ | _ | i <;>
    simp [paletteR, paletteG, paletteB, palette]

lemma diffSq_le {a c : Int} (ha0 : 0 ≤ a) (ha1 : a ≤ 255) (hc0 : 0 ≤ c)
    (hc1 : c ≤ 255) : (a - c) * (a - c) ≤ 65025 := by nlinarith

lemma dist2_small {r g b : Int} (hr0 : 0 ≤ r) (hr1 : r ≤ 255) (hg0 : 0 ≤ g)
    (hg1 : g ≤ 255) (hb0 : 0 ≤ b) (hb1 : b ≤ 255) (i : Nat) :
    0 ≤ dist2 r g b i ∧ dist2 r g b i < 4294967295 := by
  obtain ⟨h1, h2, h3, h4, h5, h6⟩ := palette_channel_bounds i
  have e1 := diffSq_le hr0 hr1 h1 h2
  have e2 := diffSq_le hg0 hg1 h3 h4
  have e3 := diffSq_le hb0 hb1 h5 h6
  have p1 := mul_self_nonneg (r - paletteR i)
  have p2 := mul_self_nonneg (g - paletteG i)
  have p3 := mul_self_nonneg (b - paletteB i)
  unfold dist2
  omega

set_option maxHeartbeats 2000000 in
/-- C1.  For every RGB triple with byte-range channels, `findNearestColor`
returns an index `< 6` that minimises the squared Euclidean distance to the
palette, and on ties it returns the lowest minimising index — i.e. exactly
the result of a brute-force linear scan of the 6 entries. -/
theorem findNearestColor_is_argmin (r g b : Int) (hr0 : 0 ≤ r) (hr1 : r ≤ 255)
    (hg0 : 0 ≤ g) (hg1 : g ≤ 255) (hb0 : 0 ≤ b) (hb1 : b ≤ 255) :
    findNearestColor r g b < 6 ∧
      (∀ j, j < 6 → dist2 r g b (findNearestColor r g b) ≤ dist2 r g b j) ∧
      (∀ j, j < 6 → dist2 r g b j = dist2 r g b (findNearestColor r g b) →
        findNearestColor r g b ≤ j) := by
  obtain ⟨q00, q01⟩ := dist2_small hr0 hr1 hg0 hg1 hb0 hb1 0
  obtain ⟨q10, q11⟩ := dist2_small hr0 hr1 hg0 hg1 hb0 hb1 1
  obtain ⟨q20, q21⟩ := dist2_small hr0 hr1 hg0 hg1 hb0 hb1 2
  obtain ⟨q30, q31⟩ := dist2_small hr0 hr1 hg0 hg1 hb0 hb1 3
  obtain ⟨q40, q41⟩ := dist2_small hr0 hr1 hg0 hg1 hb0 hb1 4
  obtain ⟨q50, q51⟩ := dist2_small hr0 hr1 hg0 hg1 hb0 hb1 5
  have hrange : List.range 6 = [0, 1, 2, 3, 4, 5] := rfl
  unfold findNearestColor
  rw [hrange]
  simp only [List.foldl_cons, List.foldl_nil, fncStep, apply_ite Prod.fst,
    apply_ite Prod.snd]
  split_ifs <;>
    refine ⟨by norm_num, fun j hj => ?_, fun j hj => ?_⟩ <;>
      interval_cases j <;> omega

/-- Witness for C1 at the concrete RGB triple (10, 20, 30). -/
theorem findNearestColor_is_argmin_witness :
    findNearestColor 10 20 30 < 6 ∧
      dist2 10 20 30 (findNearestColor 10 20 30) ≤ dist2 10 20 30 0 := by
  have h := findNearestColor_is_argmin 10 20 30 (by norm_num) (by norm_num)
    (by norm_num) (by norm_num) (by norm_num) (by norm_num)
  exact ⟨h.1, h.2.1 0 (by norm_num)⟩

/-! ## ImageScreen::ditherImage (RGB565 Floyd-Steinberg quantizer)

State of the loop: five one-bit-per-pixel bitplanes built byte-wise, and six
row-sized error buffers (current / next row, per RGB channel). -/

/-- The six `int16_t` error rows (`errR_curr` … `errB_next`). -/
structure ErrBufs where
  rc : Nat → Int
  gc : Nat → Int
  bc : Nat → Int
  rn : Nat → Int
  gn : Nat → Int
  bn : Nat → Int

/-- The five output bitplanes, each a byte array indexed by byte offset. -/
structure Planes where
  black : Nat → Nat
  yellow : Nat → Nat
  red : Nat → Nat
  blue : Nat → Nat
  green : Nat → Nat

structure DState where
  e : ErrBufs
  p : Planes

/-- `r = ((p565 >> 11) & 0x1F) << 3`. -/
def dec565R (p : Nat) : Int := (((p >>> 11) &&& 31) <<< 3 : Nat)
/-- `g = ((p565 >> 5) & 0x3F) << 2`. -/
def dec565G (p : Nat) : Int := (((p >>> 5) &&& 63) <<< 2 : Nat)
/-- `b = (p565 & 0x1F) << 3`. -/
def dec565B (p : Nat) : Int := ((p &&& 31) <<< 3 : Nat)

/-- Arduino `constrain(v, 0, 255)`. -/
def constrain255 (v : Int) : Int := if v < 0 then 0 else if v > 255 then 255 else v

/-- Row stride of a bitplane: `bitmapWidthBytes = (width + 7) / 8`. -/
def stride (w : Nat) : Nat := (w + 7) / 8

/-- `byteIndex = flippedY * bitmapWidthBytes + x / 8` with
`flippedY = (height - 1) - y`. -/
def byteIdxOf (w h x y : Nat) : Nat := (h - 1 - y) * stride w + x / 8

/-- Bit position inside the byte: `7 - (x % 8)` (MSB first). -/
def bitOf (x : Nat) : Nat := 7 - x % 8

/-- Pixel value after adding the accumulated diffused error and clamping,
red channel: `constrain(r + errR_curr[x], 0, 255)`. -/
def adjR (img : Nat → Nat) (w : Nat) (e : ErrBufs) (y x : Nat) : Int :=
  constrain255 (dec565R (img (y * w + x)) + e.rc x)

def adjG (img : Nat → Nat) (w : Nat) (e : ErrBufs) (y x : Nat) : Int :=
  constrain255 (dec565G (img (y * w + x)) + e.gc x)

def adjB (img : Nat → Nat) (w : Nat) (e : ErrBufs) (y x : Nat) : Int :=
  constrain255 (dec565B (img (y * w + x)) + e.bc x)

/-- The palette index chosen for pixel `(x, y)` given error state `e`:
`colorIdx = findNearestColor(r, g, b)` on the clamped adjusted values. -/
def pixelColor (img : Nat → Nat) (w : Nat) (e : ErrBufs) (y x : Nat) : Nat :=
  findNearestColor (adjR img w e y x) (adjG img w e y x) (adjB img w e y x)

/-- Point update of an error row (a single `buf[i] += v` store). -/
def upd (f : Nat → Int) (i : Nat) (v : Int) : Nat → Int :=
  fun j => if j = i then v else f j

/-- `bitmap[i] |= mask`. -/
def bor (f : Nat → Nat) (i m : Nat) : Nat → Nat :=
  fun j => if j = i then f i ||| m else f j

/-- The `switch (colorIdx)` writing one bit into the matching plane
(White, index 1, writes nothing). -/
def writePlanes (P : Planes) (c i m : Nat) : Planes :=
  if c = 0 then { P with black := bor P.black i m }
  else if c = 2 then { P with yellow := bor P.yellow i m }
  else if c = 3 then { P with red := bor P.red i m }
  else if c = 4 then { P with blue := bor P.blue i m }
  else if c = 5 then { P with green := bor P.green i m }
  else P

/-- Error computation and Floyd-Steinberg diffusion of pixel `(x, y)`:
`err = adjusted - palette[colorIdx]`, then the sequential stores
`errX_curr[x+1] += err*7/16` (if `x+1 < width`), and - if `y+1 < height` -
`errX_next[x-1] += err*3/16` (if `x > 0`), `errX_next[x] += err*5/16`,
`errX_next[x+1] += err*1/16` (if `x+1 < width`); C division truncates. -/
def pixelErrStep (img : Nat → Nat) (w h : Nat) (e : ErrBufs) (y x : Nat) : ErrBufs :=
  let c := pixelColor img w e y x
  let eR := adjR img w e y x - paletteR c
  let eG := adjG img w e y x - paletteG c
  let eB := adjB img w e y x - paletteB c
  let e1 :=
    if x + 1 < w then
      { e with rc := upd e.rc (x + 1) (e.rc (x + 1) + (eR * 7).tdiv 16),
               gc := upd e.gc (x + 1) (e.gc (x + 1) + (eG * 7).tdiv 16),
               bc := upd e.bc (x + 1) (e.bc (x + 1) + (eB * 7).tdiv 16) }
    else e
  if y + 1 < h then
    let e2 :=
      if x > 0 then
        { e1 with rn := upd e1.rn (x - 1) (e1.rn (x - 1) + (eR * 3).tdiv 16),
                  gn := upd e1.gn (x - 1) (e1.gn (x - 1) + (eG * 3).tdiv 16),
                  bn := upd e1.bn (x - 1) (e1.bn (x - 1) + (eB * 3).tdiv 16) }
      else e1
    let e3 :=
      { e2 with rn := upd e2.rn x (e2.rn x + (eR * 5).tdiv 16),
                gn := upd e2.gn x (e2.gn x + (eG * 5).tdiv 16),
                bn := upd e2.bn x (e2.bn x + (eB * 5).tdiv 16) }
    if x + 1 < w then
      { e3 with rn := upd e3.rn (x + 1) (e3.rn (x + 1) + (eR * 1).tdiv 16),
                gn := upd e3.gn (x + 1) (e3.gn (x + 1) + (eG * 1).tdiv 16),
                bn := upd e3.bn (x + 1) (e3.bn (x + 1) + (eB * 1).tdiv 16) }
    else e3
  else e1

/-- Body of the inner `for x` loop for pixel `(x, y)`. -/
def stepPix (img : Nat → Nat) (w h : Nat) (s : DState) (y x : Nat) : DState :=
  { e := pixelErrStep img w h s.e y x,
    p := writePlanes s.p (pixelColor img w s.e y x) (byteIdxOf w h x y)
           (1 <<< bitOf x) }

/-- End-of-row bookkeeping: `memcpy(curr, next); memset(next, 0)` for each
channel. -/
def rowEnd (s : DState) : DState :=
  { s with e := { rc := s.e.rn, gc := s.e.gn, bc := s.e.bn,
                  rn := fun _ => 0, gn := fun _ => 0, bn := fun _ => 0 } }

/-- The inner loop run over columns `0 … x-1` of row `y`. -/
def runRowUpTo (img : Nat → Nat) (w h y : Nat) (s : DState) (x : Nat) : DState :=
  (List.range x).foldl (fun t x' => stepPix img w h t y x') s

/-- One full row: all `width` columns, then the error-buffer swap. -/
def runRow (img : Nat → Nat) (w h : Nat) (s : DState) (y : Nat) : DState :=
  rowEnd (runRowUpTo img w h y s w)

/-- Initial state: bitplanes `memset` to 0, error buffers `calloc`ed to 0. -/
def initState : DState :=
  { e := { rc := fun _ => 0, gc := fun _ => 0, bc := fun _ => 0,
           rn := fun _ => 0, gn := fun _ => 0, bn := fun _ => 0 },
    p := { black := fun _ => 0, yellow := fun _ => 0, red := fun _ => 0,
           blue := fun _ => 0, green := fun _ => 0 } }

/-- State after the first `y` rows of `ditherImage`. -/
def runUpTo (img : Nat → Nat) (w h y : Nat) : DState :=
  (List.range y).foldl (runRow img w h) initState

/-- Full `ImageScreen::ditherImage` run (bitplanes and final error state). -/
def ditherRun (img : Nat → Nat) (w h : Nat) : DState := runUpTo img w h h

/-- The palette index `ditherImage` assigns to pixel `(x, y)`: the color
chosen from the error state just before that pixel is processed. -/
def assign (img : Nat → Nat) (w h x y : Nat) : Nat :=
  pixelColor img w (runRowUpTo img w h y (runUpTo img w h y) x).e y x

set_option maxHeartbeats 4000000 in
set_option maxRecDepth 16000 in
/-- C2.  Per-pixel behaviour of the quantizer loop: the chosen palette index
comes from the pixel value plus the accumulated error, clamped to `[0,255]`
per channel; the quantization error `adjusted - palette[colorIdx]` is
diffused (with C truncating division) with weight 7/16 to `(x+1, y)`,
3/16 to `(x-1, y+1)`, 5/16 to `(x, y+1)` and 1/16 to `(x+1, y+1)`, shares
aimed outside the canvas being dropped; and at the end of each row the
next-row buffers become the current-row buffers and are then cleared. -/
theorem ditherImage_error_diffusion (img : Nat → Nat) (w h : Nat) (s : DState)
    (y x : Nat) :
    pixelColor img w s.e y x =
        findNearestColor (constrain255 (dec565R (img (y * w + x)) + s.e.rc x))
          (constrain255 (dec565G (img (y * w + x)) + s.e.gc x))
          (constrain255 (dec565B (img (y * w + x)) + s.e.bc x)) ∧
      ((stepPix img w h s y x).e.rc = fun i => s.e.rc i +
          if x + 1 < w ∧ i = x + 1 then
            ((adjR img w s.e y x - paletteR (pixelColor img w s.e y x)) * 7).tdiv 16
          else 0) ∧
      ((stepPix img w h s y x).e.gc = fun i => s.e.gc i +
          if x + 1 < w ∧ i = x + 1 then
            ((adjG img w s.e y x - paletteG (pixelColor img w s.e y x)) * 7).tdiv 16
          else 0) ∧
      ((stepPix img w h s y x).e.bc = fun i => s.e.bc i +
          if x + 1 < w ∧ i = x + 1 then
            ((adjB img w s.e y x - paletteB (pixelColor img w s.e y x)) * 7).tdiv 16
          else 0) ∧
      ((stepPix img w h s y x).e.rn = fun i => s.e.rn i +
          (if y + 1 < h ∧ 0 < x ∧ i = x - 1 then
            ((adjR img w s.e y x - paletteR (pixelColor img w s.e y x)) * 3).tdiv 16
          else 0) +
          (if y + 1 < h ∧ i = x then
            ((adjR img w s.e y x - paletteR (pixelColor img w s.e y x)) * 5).tdiv 16
          else 0) +
          (if y + 1 < h ∧ x + 1 < w ∧ i = x + 1 then
            ((adjR img w s.e y x - paletteR (pixelColor img w s.e y x)) * 1).tdiv 16
          else 0)) ∧
      ((stepPix img w h s y x).e.gn = fun i => s.e.gn i +
          (if y + 1 < h ∧ 0 < x ∧ i = x - 1 then
            ((adjG img w s.e y x - paletteG (pixelColor img w s.e y x)) * 3).tdiv 16
          else 0) +
          (if y + 1 < h ∧ i = x then
            ((adjG img w s.e y x - paletteG (pixelColor img w s.e y x)) * 5).tdiv 16
          else 0) +
          (if y + 1 < h ∧ x + 1 < w ∧ i = x + 1 then
            ((adjG img w s.e y x - paletteG (pixelColor img w s.e y x)) * 1).tdiv 16
          else 0)) ∧
      ((stepPix img w h s y x).e.bn = fun i => s.e.bn i +
          (if y + 1 < h ∧ 0 < x ∧ i = x - 1 then
            ((adjB img w s.e y x - paletteB (pixelColor img w s.e y x)) * 3).tdiv 16
          else 0) +
          (if y + 1 < h ∧ i = x then
            ((adjB img w s.e y x - paletteB (pixelColor img w s.e y x)) * 5).tdiv 16
          else 0) +
          (if y + 1 < h ∧ x + 1 < w ∧ i = x + 1 then
            ((adjB img w s.e y x - paletteB (pixelColor img w s.e y x)) * 1).tdiv 16
          else 0)) ∧
      runRow img w h s y = rowEnd (runRowUpTo img w h y s w) ∧
      (rowEnd s).e.rc = s.e.rn ∧ (rowEnd s).e.gc = s.e.gn ∧
      (rowEnd s).e.bc = s.e.bn ∧ (rowEnd s).e.rn = (fun _ => 0) ∧
      (rowEnd s).e.gn = (fun _ => 0) ∧ (rowEnd s).e.bn = (fun _ => 0) := by
  refine ⟨rfl, ?_, ?_, ?_, ?_, ?_, ?_, rfl, rfl, rfl, rfl, rfl, rfl, rfl⟩ <;>
    · funext i
      rcases Nat.eq_zero_or_pos x with hx | hx
      · subst hx
        by_cases h1 : 1 < w <;> by_cases h2 : y + 1 < h <;>
          by_cases hi2 : i = 0 <;> by_cases hi3 : i = 1 <;>
            simp only [stepPix, pixelErrStep, upd, h1, h2, hi2, hi3,
              Nat.zero_sub, Nat.sub_zero, zero_add, gt_iff_lt,
              lt_self_iff_false, ite_true, ite_false, and_true, true_and,
              and_false, false_and, if_true, if_false, ite_self] <;>
            (try split_ifs) <;> first | omega | exact absurd trivial fun _ => False.elim ‹False›
      · by_cases h1 : x + 1 < w <;> by_cases h2 : y + 1 < h <;>
          by_cases hi1 : i = x - 1 <;> by_cases hi2 : i = x <;>
          by_cases hi3 : i = x + 1 <;>
            simp only [stepPix, pixelErrStep, upd, h1, h2, hx, hi1, hi2, hi3,
              gt_iff_lt, ite_true, ite_false, and_true, true_and, and_false,
              false_and, if_true, if_false, ite_self] <;>
            (try split_ifs) <;> first | omega | exact absurd trivial fun _ => False.elim ‹False›

/-! ## Bitplane characterization -/

/-- The palette indices that own a bitplane (White, index 1, owns none). -/
def codes : List Nat := [0, 2, 3, 4, 5]

/-- The bitplane byte array owned by palette index `c`. -/
def planeOf (P : Planes) : Nat → (Nat → Nat)
  | 0 => P.black
  | 2 => P.yellow
  | 3 => P.red
  | 4 => P.blue
  | 5 => P.green
  | _ => fun _ => 0

lemma planeOf_writePlanes (P : Planes) (c0 c i m : Nat) (hc : c ∈ codes) :
    planeOf (writePlanes P c0 i m) c =
      if c = c0 then bor (planeOf P c) i m else planeOf P c := by
  unfold writePlanes
  fin_cases hc <;> split_ifs <;> first | rfl | (exfalso; omega)

lemma testBit_lor_single (a b k : Nat) :
    (a ||| (1 <<< b)).testBit k = (a.testBit k || decide (k = b)) := by
  rw [Nat.testBit_lor]
  congr 1
  rw [Nat.shiftLeft_eq, one_mul, Nat.testBit_two_pow, decide_eq_decide]
  exact eq_comm

lemma bor_apply (f : Nat → Nat) (i m j : Nat) :
    bor f i m j = if j = i then f i ||| m else f j := rfl

lemma euclid_unique {S a1 b1 a2 b2 : Nat} (hS : 0 < S) (hb1 : b1 < S)
    (hb2 : b2 < S) (he : a1 * S + b1 = a2 * S + b2) : a1 = a2 ∧ b1 = b2 := by
  have d1 : (a1 * S + b1) / S = a1 := by
    rw [Nat.mul_comm, Nat.mul_add_div hS, Nat.div_eq_of_lt hb1, Nat.add_zero]
  have d2 : (a2 * S + b2) / S = a2 := by
    rw [Nat.mul_comm, Nat.mul_add_div hS, Nat.div_eq_of_lt hb2, Nat.add_zero]
  have ha : a1 = a2 := by rw [← d1, ← d2, he]
  subst ha
  omega

/-- Distinct in-range pixels occupy distinct (byte, bit) positions. -/
lemma pos_inj {w h x1 y1 x2 y2 : Nat} (hx1 : x1 < w) (hy1 : y1 < h)
    (hx2 : x2 < w) (hy2 : y2 < h) (hb : byteIdxOf w h x1 y1 = byteIdxOf w h x2 y2)
    (hk : bitOf x1 = bitOf x2) : x1 = x2 ∧ y1 = y2 := by
  have hm : x1 % 8 = x2 % 8 := by unfold bitOf at hk; omega
  have hs1 : x1 / 8 < stride w := by unfold stride; omega
  have hs2 : x2 / 8 < stride w := by unfold stride; omega
  unfold byteIdxOf at hb
  have hS : 0 < stride w := by omega
  obtain ⟨hy, hx⟩ := euclid_unique hS hs1 hs2 hb
  constructor <;> omega

/-- The per-plane bit contents after processing all pixels strictly before
column `x` of row `y` (raster order). -/
def SetSpec (img : Nat → Nat) (w h y x : Nat) (P : Planes) : Prop :=
  ∀ c ∈ codes, ∀ i k,
    ((planeOf P c i).testBit k = true ↔
      ∃ x' y', x' < w ∧ y' < h ∧ (y' < y ∨ (y' = y ∧ x' < x)) ∧
        byteIdxOf w h x' y' = i ∧ bitOf x' = k ∧ assign img w h x' y' = c)

lemma runRowUpTo_succ (img : Nat → Nat) (w h y : Nat) (s : DState) (x : Nat) :
    runRowUpTo img w h y s (x + 1) = stepPix img w h (runRowUpTo img w h y s x) y x := by
  unfold runRowUpTo
  rw [List.range_succ, List.foldl_append, List.foldl_cons, List.foldl_nil]

lemma runUpTo_succ (img : Nat → Nat) (w h y : Nat) :
    runUpTo img w h (y + 1) = runRow img w h (runUpTo img w h y) y := by
  unfold runUpTo
  rw [List.range_succ, List.foldl_append, List.foldl_cons, List.foldl_nil]

lemma setSpec_step (img : Nat → Nat) (w h y x : Nat) (hx : x < w) (hy : y < h)
    (P : Planes) (hP : SetSpec img w h y x P) :
    SetSpec img w h y (x + 1)
      (writePlanes P (assign img w h x y) (byteIdxOf w h x y) (1 <<< bitOf x)) := by
  intro c hc i k
  rw [planeOf_writePlanes _ _ _ _ _ hc]
  by_cases hcc : c = assign img w h x y
  · rw [if_pos hcc]
    by_cases hib : i = byteIdxOf w h x y
    · subst hib
      rw [bor_apply, if_pos rfl, testBit_lor_single]
      simp only [Bool.or_eq_true, decide_eq_true_eq]
      rw [hP c hc _ k]
      constructor
      · rintro (⟨x', y', h1, h2, h3, h4, h5, h6⟩ | hk)
        · exact ⟨x', y', h1, h2, by omega, h4, h5, h6⟩
        · exact ⟨x, y, hx, hy, by omega, rfl, hk.symm, hcc.symm⟩
      · rintro ⟨x', y', h1, h2, h3, h4, h5, h6⟩
        by_cases hxy : x' = x ∧ y' = y
        · right
          rw [← h5, hxy.1]
        · left
          exact ⟨x', y', h1, h2, by omega, h4, h5, h6⟩
    · rw [bor_apply, if_neg hib, hP c hc i k]
      constructor
      · rintro ⟨x', y', h1, h2, h3, h4, h5, h6⟩
        exact ⟨x', y', h1, h2, by omega, h4, h5, h6⟩
      · rintro ⟨x', y', h1, h2, h3, h4, h5, h6⟩
        refine ⟨x', y', h1, h2, ?_, h4, h5, h6⟩
        by_cases hxy : x' = x ∧ y' = y
        · exact absurd (hxy.1 ▸ hxy.2 ▸ h4 : byteIdxOf w h x y = i) fun hh => hib hh.symm
        · omega
  · rw [if_neg hcc, hP c hc i k]
    constructor
    · rintro ⟨x', y', h1, h2, h3, h4, h5, h6⟩
      exact ⟨x', y', h1, h2, by omega, h4, h5, h6⟩
    · rintro ⟨x', y', h1, h2, h3, h4, h5, h6⟩
      refine ⟨x', y', h1, h2, ?_, h4, h5, h6⟩
      by_cases hxy : x' = x ∧ y' = y
      · exact absurd (hxy.1 ▸ hxy.2 ▸ h6 : assign img w h x y = c) fun hh => hcc hh.symm
      · omega

lemma setSpec_runRow (img : Nat → Nat) (w h y : Nat) (hy : y < h)
    (hbase : SetSpec img w h y 0 (runUpTo img w h y).p) :
    ∀ x, x ≤ w →
      SetSpec img w h y x (runRowUpTo img w h y (runUpTo img w h y) x).p := by
  intro x
  induction x with
  | zero => intro _; exact hbase
  | succ x ih =>
    intro hx1
    have hx : x < w := by omega
    rw [runRowUpTo_succ]
    exact setSpec_step img w h y x hx hy _ (ih (by omega))

lemma setSpec_row_shift (img : Nat → Nat) (w h y : Nat) (P : Planes)
    (hP : SetSpec img w h y w P) : SetSpec img w h (y + 1) 0 P := by
  intro c hc i k
  rw [hP c hc i k]
  constructor <;>
    · rintro ⟨x', y', h1, h2, h3, h4, h5, h6⟩
      exact ⟨x', y', h1, h2, by omega, h4, h5, h6⟩

lemma setSpec_init (img : Nat → Nat) (w h : Nat) :
    SetSpec img w h 0 0 initState.p := by
  intro c hc i k
  have hz : planeOf initState.p c = fun _ => 0 := by fin_cases hc <;> rfl
  rw [hz]
  simp only [Nat.zero_testBit, Bool.false_eq_true, false_iff]
  rintro ⟨x', y', h1, h2, h3, h4, h5, h6⟩
  omega

lemma setSpec_runUpTo (img : Nat → Nat) (w h : Nat) :
    ∀ y, y ≤ h → SetSpec img w h y 0 (runUpTo img w h y).p := by
  intro y
  induction y with
  | zero => intro _; exact setSpec_init img w h
  | succ y ih =>
    intro hy1
    have hy : y < h := by omega
    rw [runUpTo_succ]
    exact setSpec_row_shift img w h y _ (setSpec_runRow img w h y hy (ih (by omega)) w le_rfl)

/-- Full description of each bitplane produced by `ditherImage`: a bit is
set exactly at the (mirrored, packed) position of an in-range pixel whose
assigned palette index owns that plane. -/
theorem ditherRun_testBit (img : Nat → Nat) (w h c : Nat) (hc : c ∈ codes)
    (i k : Nat) :
    ((planeOf (ditherRun img w h).p c i).testBit k = true ↔
      ∃ x y, x < w ∧ y < h ∧ byteIdxOf w h x y = i ∧ bitOf x = k ∧
        assign img w h x y = c) := by
  unfold ditherRun
  rw [setSpec_runUpTo img w h h le_rfl c hc i k]
  constructor
  · rintro ⟨x', y', h1, h2, h3, h4, h5, h6⟩
    exact ⟨x', y', h1, h2, h4, h5, h6⟩
  · rintro ⟨x', y', h1, h2, h4, h5, h6⟩
    exact ⟨x', y', h1, h2, by omega, h4, h5, h6⟩

/-- C3.  Every pixel gets exactly one palette index in `0..5`; at a pixel's
bit position at most one of the five planes is set, and a White pixel
(index 1) leaves all five planes clear there. -/
theorem ditherImage_one_index_per_pixel (img : Nat → Nat) (w h x y : Nat)
    (hx : x < w) (hy : y < h) :
    assign img w h x y < 6 ∧
      (∀ c1 c2, c1 ∈ codes → c2 ∈ codes →
        (planeOf (ditherRun img w h).p c1 (byteIdxOf w h x y)).testBit (bitOf x) = true →
        (planeOf (ditherRun img w h).p c2 (byteIdxOf w h x y)).testBit (bitOf x) = true →
        c1 = c2) ∧
      (assign img w h x y = 1 → ∀ c ∈ codes,
        (planeOf (ditherRun img w h).p c (byteIdxOf w h x y)).testBit (bitOf x) = false) := by
  refine ⟨findNearestColor_lt_6 _ _ _, ?_, ?_⟩
  · intro c1 c2 hc1 hc2 hb1 hb2
    obtain ⟨x1, y1, e1, e2, e3, e4, e5⟩ := (ditherRun_testBit img w h c1 hc1 _ _).mp hb1
    obtain ⟨x2, y2, f1, f2, f3, f4, f5⟩ := (ditherRun_testBit img w h c2 hc2 _ _).mp hb2
    obtain ⟨g1, g2⟩ := pos_inj e1 e2 hx hy e3 e4
    obtain ⟨g3, g4⟩ := pos_inj f1 f2 hx hy f3 f4
    rw [← e5, ← f5, g1, g2, g3, g4]
  · intro hw c hc
    rw [← Bool.not_eq_true]
    intro hb
    obtain ⟨x1, y1, e1, e2, e3, e4, e5⟩ := (ditherRun_testBit img w h c hc _ _).mp hb
    obtain ⟨g1, g2⟩ := pos_inj e1 e2 hx hy e3 e4
    rw [g1, g2, hw] at e5
    fin_cases hc <;> omega

/-- Witness for C3 at a concrete input (1x1 all-black canvas). -/
theorem ditherImage_one_index_per_pixel_witness :
    assign (fun _ => 0) 1 1 0 0 < 6 :=
  (ditherImage_one_index_per_pixel (fun _ => 0) 1 1 0 0 (by decide) (by decide)).1

/-- C5.  When the quantizer sets a bit for pixel `(x, y)` it does so at the
vertically mirrored row `height-1-y`, byte `x / 8` of a row of stride
`ceil(width/8) = (width+7)/8` bytes, bit `7 - x % 8` (MSB first). -/
theorem ditherImage_bit_position (img : Nat → Nat) (w h x y c : Nat)
    (hx : x < w) (hy : y < h) (hc : c ∈ codes)
    (ha : assign img w h x y = c) :
    (planeOf (ditherRun img w h).p c
        ((h - 1 - y) * ((w + 7) / 8) + x / 8)).testBit (7 - x % 8) = true := by
  have hpos : byteIdxOf w h x y = (h - 1 - y) * ((w + 7) / 8) + x / 8 := rfl
  have hbit : bitOf x = 7 - x % 8 := rfl
  rw [← hpos, ← hbit]
  exact (ditherRun_testBit img w h c hc _ _).mpr ⟨x, y, hx, hy, rfl, rfl, ha⟩

/-- Witness for C5: the single pixel of a 1x1 black canvas sets bit 7 of
byte 0 in the black plane. -/
theorem ditherImage_bit_position_witness :
    (planeOf (ditherRun (fun _ => 0) 1 1).p 0
        ((1 - 1 - 0) * ((1 + 7) / 8) + 0 / 8)).testBit (7 - 0 % 8) = true :=
  ditherImage_bit_position (fun _ => 0) 1 1 0 0 0 (by decide) (by decide)
    (by decide) (by decide)

/-! ## ImageScreen::decodeBMP and ImageScreen::processImageData -/

/-- Little-endian 16-bit header read: `b0 | b1 << 8`. -/
def le16 (d : Nat → Nat) (i : Nat) : Nat := d i ||| (d (i + 1) <<< 8)

/-- Little-endian 32-bit header read: `b0 | b1<<8 | b2<<16 | b3<<24`. -/
def le32 (d : Nat → Nat) (i : Nat) : Nat :=
  d i ||| (d (i + 1) <<< 8) ||| (d (i + 2) <<< 16) ||| (d (i + 3) <<< 24)

/-- BGR bytes to RGB565: `(r5 << 11) | (g6 << 5) | b5`. -/
def pix565 (r g b : Nat) : Nat :=
  (((r >>> 3) &&& 31) <<< 11) ||| (((g >>> 2) &&& 63) <<< 5) ||| ((b >>> 3) &&& 31)

/-- 24-bit BMP row stride: `rowSize = ((imageWidth * 24 + 31) / 32) * 4`. -/
def bmpRowSize (w : Nat) : Nat := (w * 24 + 31) / 32 * 4

/-- The inner `for x` loop of the 24-bit decode for canvas row `y`: state is
`(rgb565 canvas, dataIndex)`; out-of-panel pixels advance `dataIndex` by 3
and write nothing. -/
def bmp24Row (d : Nat → Nat) (w y : Nat) (acc : (Nat → Nat) × Nat) :
    (Nat → Nat) × Nat :=
  (List.range w).foldl
    (fun acc x =>
      if 1200 ≤ x ∨ 1600 ≤ y then (acc.1, acc.2 + 3)
      else
        (fun i =>
          if i = y * 1200 + x then
            pix565 (d (acc.2 + 2)) (d (acc.2 + 1)) (d acc.2)
          else acc.1 i,
         acc.2 + 3))
    acc

/-- The outer `for y` loop over the listed canvas rows (the source iterates
`y = imageHeight-1` down to `0`), skipping the row padding after each row. -/
def bmp24Rows (d : Nat → Nat) (w : Nat) (ys : List Nat)
    (acc : (Nat → Nat) × Nat) : (Nat → Nat) × Nat :=
  ys.foldl
    (fun acc y =>
      ((bmp24Row d w y acc).1, (bmp24Row d w y acc).2 + (bmpRowSize w - w * 3)))
    acc

/-- The full 24-bit pixel loop: canvas starts all white (`0xFFFF` memset),
`dataIndex = dataOffset`, rows processed bottom-to-top. -/
def bmp24Fill (d : Nat → Nat) (off w h : Nat) : Nat → Nat :=
  (bmp24Rows d w (List.range h).reverse (fun _ => 65535, off)).1

/-- `ImageScreen::decodeBMP`: header-size check, `BM` magic check, then the
24-bit path; the 8-bit branch computes a pixel buffer that is never used,
and every bit depth other than 24 falls through to the failure return. -/
def decodeBMP (d : Nat → Nat) (n : Nat) : Option (Nat → Nat) :=
  if n < 54 then none
  else if d 0 = 66 ∧ d 1 = 77 then
    if le16 d 28 = 24 then
      some (bmp24Fill d (le32 d 10) (le32 d 18) (le32 d 22))
    else none
  else none

/-- Outcome of `ImageScreen::processImageData`: which decoder the magic
bytes select (JPEG/PNG decoding itself is an external library call). -/
inductive ProcResult where
  | jpegPath : ProcResult
  | pngPath : ProcResult
  | bmpPath : Option (Nat → Nat) → ProcResult
  | unknownFormat : ProcResult

/-- `ImageScreen::processImageData`: length guard and magic-byte dispatch. -/
def processImageData (d : Nat → Nat) (n : Nat) : ProcResult :=
  if n < 4 then ProcResult.unknownFormat
  else if d 0 = 255 ∧ d 1 = 216 then ProcResult.jpegPath
  else if d 0 = 137 ∧ d 1 = 80 ∧ d 2 = 78 ∧ d 3 = 71 then ProcResult.pngPath
  else if d 0 = 66 ∧ d 1 = 77 then ProcResult.bmpPath (decodeBMP d n)
  else ProcResult.unknownFormat

lemma bmpRowSize_ge (w : Nat) : w * 3 ≤ bmpRowSize w := by
  unfold bmpRowSize; omega

lemma bmp24Row_succ (d : Nat → Nat) (w y : Nat) (acc : (Nat → Nat) × Nat) :
    bmp24Row d (w + 1) y acc =
      if 1200 ≤ w ∨ 1600 ≤ y then
        ((bmp24Row d w y acc).1, (bmp24Row d w y acc).2 + 3)
      else
        (fun i =>
          if i = y * 1200 + w then
            pix565 (d ((bmp24Row d w y acc).2 + 2)) (d ((bmp24Row d w y acc).2 + 1))
              (d ((bmp24Row d w y acc).2))
          else (bmp24Row d w y acc).1 i,
         (bmp24Row d w y acc).2 + 3) := by
  unfold bmp24Row
  rw [List.range_succ, List.foldl_append, List.foldl_cons, List.foldl_nil]

lemma bmp24Row_snd (d : Nat → Nat) (w y : Nat) (acc : (Nat → Nat) × Nat) :
    (bmp24Row d w y acc).2 = acc.2 + 3 * w := by
  induction w generalizing acc with
  | zero => simp [bmp24Row]
  | succ w ih =>
    rw [bmp24Row_succ]
    split_ifs <;> dsimp only <;> rw [ih] <;> omega

lemma bmp24Row_pres (d : Nat → Nat) (w y : Nat) (acc : (Nat → Nat) × Nat)
    (i : Nat) (hi : ∀ x, x < w → x < 1200 → i ≠ y * 1200 + x) :
    (bmp24Row d w y acc).1 i = acc.1 i := by
  induction w generalizing acc with
  | zero => simp [bmp24Row]
  | succ w ih =>
    rw [bmp24Row_succ]
    have ihw := ih acc fun x hx hx2 => hi x (by omega) hx2
    split_ifs with hskip
    · exact ihw
    · dsimp only
      rw [if_neg (hi w (by omega) (by omega))]
      exact ihw

lemma bmp24Row_val (d : Nat → Nat) (w y : Nat) (acc : (Nat → Nat) × Nat)
    (x : Nat) (hx : x < w) (hx2 : x < 1200) (hy2 : y < 1600) :
    (bmp24Row d w y acc).1 (y * 1200 + x) =
      pix565 (d (acc.2 + 3 * x + 2)) (d (acc.2 + 3 * x + 1)) (d (acc.2 + 3 * x)) := by
  induction w generalizing acc with
  | zero => omega
  | succ w ih =>
    rw [bmp24Row_succ]
    rcases Nat.lt_or_ge x w with hxw | hxw
    · have hne : y * 1200 + x ≠ y * 1200 + w := by omega
      split_ifs with hskip
      · exact ih acc hxw
      · dsimp only
        rw [if_neg hne]
        exact ih acc hxw
    · have hxeq : x = w := by omega
      subst hxeq
      have hskip : ¬ (1200 ≤ x ∨ 1600 ≤ y) := by omega
      rw [if_neg hskip]
      dsimp only
      rw [if_pos rfl, bmp24Row_snd]

lemma bmp24Rows_cons (d : Nat → Nat) (w a : Nat) (t : List Nat)
    (acc : (Nat → Nat) × Nat) :
    bmp24Rows d w (a :: t) acc =
      bmp24Rows d w t
        ((bmp24Row d w a acc).1,
         (bmp24Row d w a acc).2 + (bmpRowSize w - w * 3)) := rfl

lemma bmp24Rows_pres (d : Nat → Nat) (w : Nat) (ys : List Nat)
    (acc : (Nat → Nat) × Nat) (i : Nat)
    (hi : ∀ y' ∈ ys, ∀ x', x' < w → x' < 1200 → i ≠ y' * 1200 + x') :
    (bmp24Rows d w ys acc).1 i = acc.1 i := by
  induction ys generalizing acc with
  | nil => rfl
  | cons a t ih =>
    rw [bmp24Rows_cons]
    rw [ih _ fun y' hy' => hi y' (List.mem_cons_of_mem a hy')]
    exact bmp24Row_pres d w a acc i (hi a (List.mem_cons_self a t))

lemma bmp24Rows_val (d : Nat → Nat) (w h : Nat) (acc : (Nat → Nat) × Nat)
    (x y : Nat) (hx : x < w) (hx2 : x < 1200) (hy2 : y < 1600)
    (hy : y < h) :
    (bmp24Rows d w (List.range h).reverse acc).1 (y * 1200 + x) =
      pix565 (d (acc.2 + (h - 1 - y) * bmpRowSize w + 3 * x + 2))
        (d (acc.2 + (h - 1 - y) * bmpRowSize w + 3 * x + 1))
        (d (acc.2 + (h - 1 - y) * bmpRowSize w + 3 * x)) := by
  induction h generalizing acc with
  | zero => omega
  | succ h ih =>
    have hrev : (List.range (h + 1)).reverse = h :: (List.range h).reverse := by
      rw [List.range_succ, List.reverse_append]
      rfl
    rw [hrev, bmp24Rows_cons]
    rcases Nat.lt_or_ge y h with hyh | hyh
    · rw [ih _ hyh]
      have e2 : ((bmp24Row d w h acc).1,
          (bmp24Row d w h acc).2 + (bmpRowSize w - w * 3)).2 =
            acc.2 + bmpRowSize w := by
        dsimp only
        rw [bmp24Row_snd]
        have := bmpRowSize_ge w
        omega
      rw [e2]
      have hk : h + 1 - 1 - y = (h - 1 - y) + 1 := by omega
      rw [hk]
      congr 3 <;> ring
    · have hyeq : y = h := by omega
      subst hyeq
      have hz : y + 1 - 1 - y = 0 := by omega
      rw [hz]
      rw [bmp24Rows_pres d w _ _ _ fun y' hy' x' hx' hx'2 => by
        have : y' < y := by
          have := List.mem_reverse.mp hy'
          exact List.mem_range.mp this
        omega]
      dsimp only
      rw [bmp24Row_val d w y acc x hx hx2 hy2]
      simp

/-- C6.  For every 24-bit BMP (within panel bounds), the decoder takes the
pixel data at the little-endian data-offset field, writes stored row
`height-1-y` (bottom-to-top order) into canvas row `y` skipping per-row
padding of stride `rowSize = ((width*24+31)/32)*4`, and swaps BGR to RGB. -/
theorem decodeBMP_decodes_24bit (d : Nat → Nat) (n x y : Nat)
    (hn : 54 ≤ n) (hB : d 0 = 66) (hM : d 1 = 77) (hbpp : le16 d 28 = 24)
    (hx : x < le32 d 18) (hy : y < le32 d 22) (hx2 : x < 1200)
    (hy2 : y < 1600) :
    decodeBMP d n =
        some (bmp24Fill d (le32 d 10) (le32 d 18) (le32 d 22)) ∧
      bmp24Fill d (le32 d 10) (le32 d 18) (le32 d 22) (y * 1200 + x) =
        pix565
          (d (le32 d 10 + (le32 d 22 - 1 - y) * bmpRowSize (le32 d 18) + 3 * x + 2))
          (d (le32 d 10 + (le32 d 22 - 1 - y) * bmpRowSize (le32 d 18) + 3 * x + 1))
          (d (le32 d 10 + (le32 d 22 - 1 - y) * bmpRowSize (le32 d 18) + 3 * x)) := by
  constructor
  · unfold decodeBMP
    rw [if_neg (by omega), if_pos ⟨hB, hM⟩, if_pos hbpp]
  · exact bmp24Rows_val d _ _ _ x y hx hx2 hy2 hy

/-- A synthetic 2x2 solid-color 24-bit BMP: data offset 54, width 2,
height 2, 24 bpp, compression 0; every pixel stored as BGR (56, 100, 160);
each row padded from 6 to 8 bytes. -/
def bmp2x2 : Nat → Nat := fun i =>
  [66, 77, 0, 0, 0, 0, 0, 0, 0, 0,
   54, 0, 0, 0, 40, 0, 0, 0, 2, 0,
   0, 0, 2, 0, 0, 0, 1, 0, 24, 0,
   0, 0, 0, 0, 0, 0, 0, 0, 0, 0,
   0, 0, 0, 0, 0, 0, 0, 0, 0, 0,
   0, 0, 0, 0,
   56, 100, 160, 56, 100, 160, 0, 0,
   56, 100, 160, 56, 100, 160, 0, 0].getD i 0

/-- Witness for C6: the synthetic 2x2 BMP decodes, and both the top-left
canvas pixel (0,0) and pixel (1,1) hold RGB565 of (R,G,B) = (160,100,56),
i.e. `(20 << 11) | (25 << 5) | 7 = 41767`. -/
theorem decodeBMP_decodes_24bit_witness :
    decodeBMP bmp2x2 70 =
        some (bmp24Fill bmp2x2 (le32 bmp2x2 10) (le32 bmp2x2 18) (le32 bmp2x2 22)) ∧
      bmp24Fill bmp2x2 (le32 bmp2x2 10) (le32 bmp2x2 18) (le32 bmp2x2 22)
          (0 * 1200 + 0) = 41767 ∧
      bmp24Fill bmp2x2 (le32 bmp2x2 10) (le32 bmp2x2 18) (le32 bmp2x2 22)
          (1 * 1200 + 1) = 41767 := by
  have h1 := decodeBMP_decodes_24bit bmp2x2 70 0 0 (by norm_num) (by decide)
    (by decide) (by decide) (by decide) (by decide) (by norm_num) (by norm_num)
  have h2 := decodeBMP_decodes_24bit bmp2x2 70 1 1 (by norm_num) (by decide)
    (by decide) (by decide) (by decide) (by decide) (by norm_num) (by norm_num)
  refine ⟨h1.1, ?_, ?_⟩
  · rw [h1.2]; decide
  · rw [h2.2]; decide

/-- C7 (amended).  The pipeline entry rejects: buffers shorter than 4
bytes; buffers matching none of the three magics; BMP buffers shorter than
54 bytes; and BMP buffers whose bits-per-pixel is not 24 (including 8-bit
indexed BMPs).  The compression field is NOT consulted on the 24-bit
path. -/
theorem processImageData_rejects (d : Nat → Nat) (n : Nat) :
    (n < 4 → processImageData d n = ProcResult.unknownFormat) ∧
      (¬ (d 0 = 255 ∧ d 1 = 216) →
        ¬ (d 0 = 137 ∧ d 1 = 80 ∧ d 2 = 78 ∧ d 3 = 71) →
        ¬ (d 0 = 66 ∧ d 1 = 77) →
        processImageData d n = ProcResult.unknownFormat) ∧
      (d 0 = 66 → d 1 = 77 → 4 ≤ n →
        processImageData d n = ProcResult.bmpPath (decodeBMP d n)) ∧
      (n < 54 → decodeBMP d n = none) ∧
      (le16 d 28 ≠ 24 → decodeBMP d n = none) := by
  refine ⟨?_, ?_, ?_, ?_, ?_⟩
  · intro hsmall
    unfold processImageData
    rw [if_pos hsmall]
  · intro h1 h2 h3
    unfold processImageData
    split_ifs <;> first | rfl | (exfalso; tauto)
  · intro hB hM hn
    unfold processImageData
    rw [if_neg (by omega), if_neg (by simp [hB]), if_neg (by simp [hB]),
      if_pos ⟨hB, hM⟩]
  · intro hsmall
    unfold decodeBMP
    rw [if_pos hsmall]
  · intro hbpp
    unfold decodeBMP
    split_ifs <;> first | rfl | (exact absurd ‹_› hbpp)

/-- An 8-bit indexed BMP header (bpp field = 8 at offset 28). -/
def bmp8bit : Nat → Nat := fun i =>
  [66, 77, 0, 0, 0, 0, 0, 0, 0, 0,
   54, 0, 0, 0, 40, 0, 0, 0, 1, 0,
   0, 0, 1, 0, 0, 0, 1, 0, 8, 0,
   0, 0, 0, 0, 0, 0, 0, 0, 0, 0,
   0, 0, 0, 0, 0, 0, 0, 0, 0, 0,
   0, 0, 0, 0, 7, 0, 0, 0].getD i 0

/-- Witness for C7 at concrete inputs: an empty buffer, a 4-byte buffer
with no known magic, the BMP dispatch, a truncated BMP, and an 8-bit
indexed BMP. -/
theorem processImageData_rejects_witness :
    processImageData (fun _ => 0) 0 = ProcResult.unknownFormat ∧
      processImageData (fun _ => 1) 4 = ProcResult.unknownFormat ∧
      processImageData bmp8bit 58 = ProcResult.bmpPath (decodeBMP bmp8bit 58) ∧
      decodeBMP (fun _ => 66) 10 = none ∧
      decodeBMP bmp8bit 58 = none := by
  refine ⟨(processImageData_rejects (fun _ => 0) 0).1 (by norm_num),
    (processImageData_rejects (fun _ => 1) 4).2.1 (by decide) (by decide) (by decide),
    (processImageData_rejects bmp8bit 58).2.2.1 (by decide) (by decide) (by norm_num),
    (processImageData_rejects (fun _ => 66) 10).2.2.2.1 (by norm_num),
    (processImageData_rejects bmp8bit 58).2.2.2.2 (by decide)⟩

/-- A 1x1 24-bit BMP whose compression field (bytes 30-33) is 1, i.e. not
an uncompressed BI_RGB file. -/
def bmp24compressed : Nat → Nat := fun i =>
  [66, 77, 0, 0, 0, 0, 0, 0, 0, 0,
   54, 0, 0, 0, 40, 0, 0, 0, 1, 0,
   0, 0, 1, 0, 0, 0, 1, 0, 24, 0,
   1, 0, 0, 0, 0, 0, 0, 0, 0, 0,
   0, 0, 0, 0, 0, 0, 0, 0, 0, 0,
   0, 0, 0, 0, 10, 20, 30, 0].getD i 0

/-- C7 counterexample: a 24-bit BMP with a nonzero compression field is
NOT rejected — `decodeBMP` enters the 24-bit path without ever checking
the compression field, contradicting the claim that every bits-per-pixel /
compression combination other than uncompressed 24-bit fails. -/
theorem decodeBMP_ignores_compression :
    le16 bmp24compressed 28 = 24 ∧ le32 bmp24compressed 30 = 1 ∧
      (decodeBMP bmp24compressed 58).isSome = true := by
  refine ⟨by decide, by decide, ?_⟩
  unfold decodeBMP
  rw [if_neg (by norm_num), if_pos (by decide), if_pos (by decide)]
  rfl

/-! ## DisplayAdapter::sendFrameBufferToDisplay (dual-controller transport)

`Width = EPD_NATIVE_WIDTH / 2 = 600` framebuffer bytes per row,
`Width1 = 300` bytes per controller per row; `rowData half row` stands for
`writeEpdData(_frameBuffer + row * Width + half * Width1, Width1)`. -/

/-- Bus events of one framebuffer transfer. `csAssert i` is
`setPinCs(i, 0)` (drives that chip-select low, i.e. asserted),
`csAllHigh` is `setPinCsAll(GPIO_HIGH)`, `command` is
`writeEpdCommand(DTM)`. -/
inductive BusEv where
  | csAllHigh : BusEv
  | csAssert : Nat → BusEv
  | command : BusEv
  | rowData : Nat → Nat → BusEv

/-- The exact event trace of `sendFrameBufferToDisplay`. -/
def sendFrameBufferTrace : List BusEv :=
  [BusEv.csAllHigh, BusEv.csAssert 0, BusEv.command]
    ++ ((List.range 1600).map (fun r => BusEv.rowData 0 r)
    ++ ([BusEv.csAllHigh, BusEv.csAssert 1, BusEv.command]
    ++ ((List.range 1600).map (fun r => BusEv.rowData 1 r)
    ++ [BusEv.csAllHigh])))

/-- Chip-select state `(CS0 asserted, CS1 asserted)` after an event. -/
def csStep (s : Bool × Bool) : BusEv → Bool × Bool
  | BusEv.csAllHigh => (false, false)
  | BusEv.csAssert 0 => (true, s.2)
  | BusEv.csAssert 1 => (s.1, true)
  | _ => s

/-- `csOk s evs`: starting from chip-select state `s`, at no point during
`evs` are both chip selects asserted, and every row write happens with
exactly its own controller's chip select asserted. -/
def csOk : (Bool × Bool) → List BusEv → Prop
  | s, [] => ¬ (s.1 ∧ s.2)
  | s, e :: t =>
      (¬ (s.1 ∧ s.2)) ∧
        (∀ r, e = BusEv.rowData 0 r → s = (true, false)) ∧
        (∀ r, e = BusEv.rowData 1 r → s = (false, true)) ∧
        csOk (csStep s e) t

/-- Projection of a trace to its (half, row) data writes. -/
def rowOf : BusEv → Option (Nat × Nat)
  | BusEv.rowData half row => some (half, row)
  | _ => none

lemma csOk_rows (s : Bool × Bool) (half : Nat) (l : List Nat)
    (rest : List BusEv) (hs : ¬ (s.1 ∧ s.2))
    (h0 : half = 0 → s = (true, false)) (h1 : half = 1 → s = (false, true))
    (hrest : csOk s rest) :
    csOk s ((l.map fun r => BusEv.rowData half r) ++ rest) := by
  induction l with
  | nil => simpa using hrest
  | cons a t ih =>
    refine ⟨hs, ?_, ?_, ?_⟩
    · intro r he
      injection he with hh _
      exact h0 hh
    · intro r he
      injection he with hh _
      exact h1 hh
    · exact ih

lemma filterMap_rowData (half : Nat) (l : List Nat) :
    List.filterMap (rowOf ∘ fun r => BusEv.rowData half r) l =
      l.map fun r => (half, r) := by
  induction l with
  | nil => rfl
  | cons a t ih => simp [List.filterMap_cons, rowOf, Function.comp, ih]

set_option maxRecDepth 40000 in
/-- C8.  During one framebuffer transfer the left controller is selected
alone while rows 0..1599 of the left half are streamed in order, all chip
selects are released, then the right controller is selected alone for rows
0..1599 of the right half; both chip selects are never asserted at once,
every row write happens under exactly its own chip select, and the data
writes are precisely rows 0..1599 of half 0 followed by rows 0..1599 of
half 1 — each row once per half, in increasing order. -/
theorem sendFrameBuffer_protocol :
    csOk (false, false) sendFrameBufferTrace ∧
      sendFrameBufferTrace.filterMap rowOf =
        ((List.range 1600).map fun r => (0, r)) ++
          ((List.range 1600).map fun r => (1, r)) := by
  constructor
  · refine ⟨by decide, fun r he => BusEv.noConfusion he,
      fun r he => BusEv.noConfusion he, ?_⟩
    refine ⟨by decide, fun r he => BusEv.noConfusion he,
      fun r he => BusEv.noConfusion he, ?_⟩
    refine ⟨by decide, fun r he => BusEv.noConfusion he,
      fun r he => BusEv.noConfusion he, ?_⟩
    show csOk (true, false) _
    refine csOk_rows _ 0 _ _ (by decide) (fun _ => rfl)
      (fun hh => absurd hh (by decide)) ?_
    refine ⟨by decide, fun r he => BusEv.noConfusion he,
      fun r he => BusEv.noConfusion he, ?_⟩
    refine ⟨by decide, fun r he => BusEv.noConfusion he,
      fun r he => BusEv.noConfusion he, ?_⟩
    refine ⟨by decide, fun r he => BusEv.noConfusion he,
      fun r he => BusEv.noConfusion he, ?_⟩
    show csOk (false, true) _
    refine csOk_rows _ 1 _ _ (by decide) (fun hh => absurd hh (by decide))
      (fun _ => rfl) ?_
    exact ⟨by decide, fun r he => BusEv.noConfusion he,
      fun r he => BusEv.noConfusion he,
      show ¬ ((false, false).1 ∧ (false, false).2) by decide⟩
  · simp [sendFrameBufferTrace, List.filterMap_append, List.filterMap_map,
      filterMap_rowData, List.filterMap_cons, rowOf]

/-! ## scaleToFit (nearest-neighbor contain-fit upscaler, JPEG/PNG paths)

The C code computes `scale` in `float`; it is modelled here with exact
rational arithmetic.  In the 450x800 instance proved below every float
value involved is either exactly representable (1600/800 = 2.0, 450*2.0,
900.0) or used only in a comparison whose outcome rounding cannot change
(1200/450 vs 2.0), so the model agrees with the float computation there. -/

/-- Truncation of a nonnegative rational, the `(uint32_t)` cast. -/
def ratTrunc (q : ℚ) : Nat := q.num.toNat / q.den

lemma ratTrunc_natCast (n : Nat) : ratTrunc (n : ℚ) = n := by
  simp [ratTrunc, Rat.num_natCast, Rat.den_natCast]

/-- `scale = min(scaleX, scaleY)` with `scaleX = 1200/srcW`,
`scaleY = 1600/srcH` (written as the source's comparison). -/
def scaleToFitScale (srcW srcH : Nat) : ℚ :=
  if (1200 : ℚ) / srcW < (1600 : ℚ) / srcH then (1200 : ℚ) / srcW
  else (1600 : ℚ) / srcH

/-- `(scaledW, scaledH, offsetX, offsetY)` as computed by `scaleToFit`:
scaled sizes truncated from `src * scale` and clamped to the panel, offsets
`(dst - scaled) / 2` centring the image. -/
def scaleToFitParams (srcW srcH : Nat) : Nat × Nat × Nat × Nat :=
  let scaledW0 := ratTrunc ((srcW : ℚ) * scaleToFitScale srcW srcH)
  let scaledH0 := ratTrunc ((srcH : ℚ) * scaleToFitScale srcW srcH)
  let scaledW := if 1200 < scaledW0 then 1200 else scaledW0
  let scaledH := if 1600 < scaledH0 then 1600 else scaledH0
  (scaledW, scaledH, (1200 - scaledW) / 2, (1600 - scaledH) / 2)

/-- Result canvas of `scaleToFit`: unchanged when the source already covers
the panel; otherwise white everywhere except the centred scaled region,
which holds the nearest-neighbor source pixel
`(dx * srcW / scaledW, dy * srcH / scaledH)` (clamped), source pixels being
read from the first `srcH` rows of the 1200-pixel-wide buffer (the
`srcCopy` staging buffer inlined).  The loop writes each destination cell
at most once, so its effect is this pointwise map. -/
def scaleToFit (buffer : Nat → Nat) (srcW srcH : Nat) : Nat → Nat :=
  if 1200 ≤ srcW ∧ 1600 ≤ srcH then buffer
  else
    fun i =>
      let scaledW := (scaleToFitParams srcW srcH).1
      let scaledH := (scaleToFitParams srcW srcH).2.1
      let offX := (scaleToFitParams srcW srcH).2.2.1
      let offY := (scaleToFitParams srcW srcH).2.2.2
      let X := i % 1200
      let Y := i / 1200
      if offX ≤ X ∧ X < offX + scaledW ∧ offY ≤ Y ∧ Y < offY + scaledH then
        let srcY0 := (Y - offY) * srcH / scaledH
        let srcY := if srcH ≤ srcY0 then srcH - 1 else srcY0
        let srcX0 := (X - offX) * srcW / scaledW
        let srcX := if srcW ≤ srcX0 then srcW - 1 else srcX0
        buffer (srcY * 1200 + srcX)
      else 65535

/-- The post-decode step of `decodeJPG` (and likewise `decodePNG`): images
smaller than the panel in either axis go through `scaleToFit` before
dithering. -/
def jpgPostScale (buffer : Nat → Nat) (w h : Nat) : Nat → Nat :=
  if w < 1200 ∨ h < 1600 then scaleToFit buffer w h else buffer

/-- C9 (amended).  On the JPEG/PNG paths a 450x800 source is rescaled
before quantization with scale factor 2.0, scaled size 900x1600 and
centring offsets (150, 0); source pixel (0,0) lands at destination
(150, 0).  (The BMP path performs no such rescaling; see the
counterexample.) -/
theorem scaleToFit_450x800 :
    (∀ buffer : Nat → Nat, jpgPostScale buffer 450 800 = scaleToFit buffer 450 800) ∧
      scaleToFitScale 450 800 = 2 ∧
      scaleToFitParams 450 800 = (900, 1600, 150, 0) ∧
      (∀ buffer : Nat → Nat, scaleToFit buffer 450 800 (0 * 1200 + 150) = buffer 0) := by
  have hsc : scaleToFitScale 450 800 = 2 := by
    unfold scaleToFitScale
    rw [if_neg (by norm_num)]
    norm_num
  have hW : ratTrunc (((450 : Nat) : ℚ) * scaleToFitScale 450 800) = 900 := by
    rw [hsc]
    have e : ((450 : Nat) : ℚ) * 2 = ((900 : Nat) : ℚ) := by norm_num
    rw [e, ratTrunc_natCast]
  have hH : ratTrunc (((800 : Nat) : ℚ) * scaleToFitScale 450 800) = 1600 := by
    rw [hsc]
    have e : ((800 : Nat) : ℚ) * 2 = ((1600 : Nat) : ℚ) := by norm_num
    rw [e, ratTrunc_natCast]
  have hP : scaleToFitParams 450 800 = (900, 1600, 150, 0) := by
    unfold scaleToFitParams
    rw [hW, hH]
    norm_num
  refine ⟨?_, hsc, hP, ?_⟩
  · intro buffer
    unfold jpgPostScale
    rw [if_pos (by norm_num)]
  · intro buffer
    unfold scaleToFit
    rw [if_neg (by norm_num)]
    simp only [hP]
    norm_num

/-- A 1x1 24-bit BMP whose single pixel is BGR (0, 0, 248), i.e. pure red
248 after RGB565 rounding. -/
def bmp1x1red : Nat → Nat := fun i =>
  [66, 77, 0, 0, 0, 0, 0, 0, 0, 0,
   54, 0, 0, 0, 40, 0, 0, 0, 1, 0,
   0, 0, 1, 0, 0, 0, 1, 0, 24, 0,
   0, 0, 0, 0, 0, 0, 0, 0, 0, 0,
   0, 0, 0, 0, 0, 0, 0, 0, 0, 0,
   0, 0, 0, 0, 0, 0, 248, 0].getD i 0

/-- C9 counterexample: the pipeline does NOT rescale small BMP sources.  A
1x1 red BMP decodes with its pixel at canvas (0,0) (value `31 << 11 =
63488`) and pure white (`0xFFFF`) at the panel centre (600, 800) — whereas
contain-fit rescaling of a 1x1 source (scale 1200, scaled region 1200x1200
centred with `offsetY = 200`) would leave (0,0) white and colour the
centre. -/
theorem bmp_path_does_not_rescale :
    processImageData bmp1x1red 58 =
        ProcResult.bmpPath (some (bmp24Fill bmp1x1red 54 1 1)) ∧
      bmp24Fill bmp1x1red 54 1 1 (0 * 1200 + 0) = 63488 ∧
      bmp24Fill bmp1x1red 54 1 1 (800 * 1200 + 600) = 65535 := by
  refine ⟨?_, by decide, by decide⟩
  unfold processImageData
  rw [if_neg (by norm_num), if_neg (by decide), if_neg (by decide),
    if_pos (by decide)]
  unfold decodeBMP
  rw [if_neg (by norm_num), if_pos (by decide), if_pos (by decide)]
  rfl

/-! ## DisplayAdapter::drawPixel (packed 4-bit framebuffer write) -/

/-- The rotation `switch` of `drawPixel` on logical coordinates
(`EPD_NATIVE_WIDTH = 1200`, `EPD_NATIVE_HEIGHT = 1600`). -/
def rotCoords (rot : Nat) (x y : Int) : Int × Int :=
  match rot with
  | 1 => (1199 - y, x)
  | 2 => (1199 - x, 1599 - y)
  | 3 => (y, 1599 - x)
  | _ => (x, y)

/-- The bounds check on physical coordinates. -/
def outOfPanel (p : Int × Int) : Prop :=
  p.1 < 0 ∨ 1200 ≤ p.1 ∨ p.2 < 0 ∨ 1600 ≤ p.2

instance outOfPanel_dec (p : Int × Int) : Decidable (outOfPanel p) := by
  unfold outOfPanel
  infer_instance

/-- Framebuffer byte offset `((size_t)y * EPD_NATIVE_WIDTH + x) / 2`. -/
def fbIndex (p : Int × Int) : Nat := (p.2.toNat * 1200 + p.1.toNat) / 2

/-- `DisplayAdapter::drawPixel`: rotation, bounds check, then a packed
nibble write — even physical column into the high nibble
(`(b & 0x0F) | ((color & 0x0F) << 4)`), odd column into the low nibble
(`(b & 0xF0) | (color & 0x0F)`). -/
def drawPixel (fb : Nat → Nat) (rot : Nat) (x y : Int) (color : Nat) :
    Nat → Nat :=
  let p := rotCoords rot x y
  if outOfPanel p then fb
  else
    let index := fbIndex p
    if p.1.toNat % 2 = 0 then
      fun i =>
        if i = index then (fb index &&& 15) ||| ((color &&& 15) <<< 4) else fb i
    else
      fun i =>
        if i = index then (fb index &&& 240) ||| (color &&& 15) else fb i

lemma nib1 (a c : Nat) : ((a &&& 15) ||| ((c &&& 15) <<< 4)) &&& 15 = a &&& 15 := by
  apply Nat.eq_of_testBit_eq
  intro i
  have h15 : (15 : Nat) = 2 ^ 4 - 1 := rfl
  simp only [h15, Nat.testBit_land, Nat.testBit_lor, Nat.testBit_shiftLeft,
    Nat.testBit_two_pow_sub_one]
  by_cases hi : i < 4
  · have : ¬ i ≥ 4 := by omega
    simp [hi, this]
  · simp [hi]

lemma nib2 (a c : Nat) :
    (((a &&& 15) ||| ((c &&& 15) <<< 4)) >>> 4) &&& 15 = c &&& 15 := by
  apply Nat.eq_of_testBit_eq
  intro i
  have h15 : (15 : Nat) = 2 ^ 4 - 1 := rfl
  simp only [h15, Nat.testBit_land, Nat.testBit_lor, Nat.testBit_shiftLeft,
    Nat.testBit_shiftRight, Nat.testBit_two_pow_sub_one]
  by_cases hi : i < 4
  · have h1 : 4 + i ≥ 4 := by omega
    have h2 : ¬ (4 + i < 4) := by omega
    have h3 : 4 + i - 4 = i := by omega
    simp [h1, h2, h3, hi]
  · simp [hi]

lemma nib3 (a c : Nat) : ((a &&& 240) ||| (c &&& 15)) &&& 15 = c &&& 15 := by
  apply Nat.eq_of_testBit_eq
  intro i
  have h15 : (15 : Nat) = 2 ^ 4 - 1 := rfl
  have h240 : (240 : Nat) = (2 ^ 4 - 1) <<< 4 := rfl
  simp only [h15, h240, Nat.testBit_land, Nat.testBit_lor, Nat.testBit_shiftLeft,
    Nat.testBit_two_pow_sub_one]
  by_cases hi : i < 4
  · have : ¬ i ≥ 4 := by omega
    simp [hi, this]
  · simp [hi]

lemma nib4 (a c : Nat) :
    (((a &&& 240) ||| (c &&& 15)) >>> 4) &&& 15 = (a >>> 4) &&& 15 := by
  apply Nat.eq_of_testBit_eq
  intro i
  have h15 : (15 : Nat) = 2 ^ 4 - 1 := rfl
  have h240 : (240 : Nat) = (2 ^ 4 - 1) <<< 4 := rfl
  simp only [h15, h240, Nat.testBit_land, Nat.testBit_lor, Nat.testBit_shiftLeft,
    Nat.testBit_shiftRight, Nat.testBit_two_pow_sub_one]
  by_cases hi : i < 4
  · have h1 : 4 + i ≥ 4 := by omega
    have h2 : ¬ (4 + i < 4) := by omega
    have h3 : 4 + i - 4 = i := by omega
    simp [h1, h2, h3, hi]
  · simp [hi]

/-- C10.  `drawPixel` changes at most the one byte addressed by the rotated
physical coordinates, writes only the nibble selected by the physical
column parity (even column → high nibble, odd → low), leaves the partner
pixel's nibble intact, and leaves the framebuffer entirely unchanged when
the rotated coordinates are outside 1200x1600. -/
theorem drawPixel_frame (fb : Nat → Nat) (rot : Nat) (x y : Int) (color : Nat) :
    (outOfPanel (rotCoords rot x y) → drawPixel fb rot x y color = fb) ∧
      (¬ outOfPanel (rotCoords rot x y) →
        (∀ i, i ≠ fbIndex (rotCoords rot x y) → drawPixel fb rot x y color i = fb i) ∧
        ((rotCoords rot x y).1.toNat % 2 = 0 →
          drawPixel fb rot x y color (fbIndex (rotCoords rot x y)) &&& 15 =
              fb (fbIndex (rotCoords rot x y)) &&& 15 ∧
            (drawPixel fb rot x y color (fbIndex (rotCoords rot x y)) >>> 4) &&& 15 =
              color &&& 15) ∧
        ((rotCoords rot x y).1.toNat % 2 ≠ 0 →
          (drawPixel fb rot x y color (fbIndex (rotCoords rot x y)) >>> 4) &&& 15 =
              (fb (fbIndex (rotCoords rot x y)) >>> 4) &&& 15 ∧
            drawPixel fb rot x y color (fbIndex (rotCoords rot x y)) &&& 15 =
              color &&& 15)) := by
  constructor
  · intro hout
    unfold drawPixel
    rw [if_pos hout]
  · intro hin
    refine ⟨?_, ?_, ?_⟩
    · intro i hi
      unfold drawPixel
      rw [if_neg hin]
      split_ifs <;> simp only [if_neg hi]
    · intro hpar
      unfold drawPixel
      rw [if_neg hin, if_pos hpar]
      simp only [if_pos rfl]
      exact ⟨nib1 _ _, nib2 _ _⟩
    · intro hpar
      unfold drawPixel
      rw [if_neg hin, if_neg hpar]
      simp only [if_pos rfl]
      exact ⟨nib4 _ _, nib3 _ _⟩

/-- Witness for C10: an out-of-bounds write at logical (-5, 0) leaves the
framebuffer untouched, and an in-bounds write at physical (2, 0) updates
the high nibble of byte 1 while preserving its low nibble. -/
theorem drawPixel_frame_witness :
    drawPixel (fun _ => 7) 0 (-5) 0 3 = (fun _ => 7) ∧
      (drawPixel (fun _ => 7) 0 2 0 5 (fbIndex (rotCoords 0 2 0)) &&& 15 =
          (fun _ => 7) (fbIndex (rotCoords 0 2 0)) &&& 15 ∧
        (drawPixel (fun _ => 7) 0 2 0 5 (fbIndex (rotCoords 0 2 0)) >>> 4) &&& 15 =
          5 &&& 15) :=
  ⟨(drawPixel_frame (fun _ => 7) 0 (-5) 0 3).1 (by decide),
    ((drawPixel_frame (fun _ => 7) 0 2 0 5).2 (by decide)).2.1 (by decide)⟩

/-- The all-white RGB565 canvas: every pixel is `0xFFFF`. -/
def whiteCanvas : Nat → Nat := fun _ => 65535

set_option maxRecDepth 200000 in
/-- C4 (code defect).  On an all-white RGB565 canvas (every pixel `0xFFFF`,
here at size 16x14) the quantizer does NOT produce empty bitplanes: white
decodes from RGB565 to (248, 252, 248), the per-pixel quantization error
accumulates without decay, and pixel (12, 13) is quantized to Yellow
(index 2), so bit 3 of byte 1 of the yellow plane ends up set. -/
theorem ditherImage_all_white_sets_a_bit :
    assign whiteCanvas 16 14 12 13 = 2 ∧
      Nat.testBit ((ditherRun whiteCanvas 16 14).p.yellow 1) 3 = true := by
  constructor
  · decide
  · decide

end Spectra
